import Mathlib

/-
  Shallow embedding of boost/histogram storage_adaptor.hpp and
  boost/histogram/axis/interval_view.hpp.

  Elements of a storage are modelled as integers (the Plain numeric shape:
  default value `value_type()` is 0, `++t` is `t + 1`, `t += u` is `t + u`).
  The three backend augmentations are modelled as:
    - vector_augmentation : List ℤ (size = length of the sequence),
    - array_augmentation  : a fixed buffer (List ℤ, whose length is the
      capacity, std::array::max_size()) plus a separate size_ field,
    - map_augmentation    : an association list from index to value plus a
      separate size_ field (std::map has unique keys; `erase(it)` on the
      found entry is modelled as filtering the key out, `*it = u` on the
      found entry as rewriting the value at that key).
  A throwing operation is modelled as returning `Option CapErr × State`,
  mirroring the statement order of the C++ body: the error is produced at
  the point of the `throw`, paired with the state as mutated up to that
  point.
-/

namespace HistStorage

/-- Indexed read of a contiguous buffer, `v[i]`. Out-of-range access is
undefined behavior in the C++ (assert-only); the model totalizes it to 0,
and every theorem that touches it carries the in-range precondition. -/
def rd : List ℤ → ℕ → ℤ
  | [], _ => 0
  | a :: _, 0 => a
  | _ :: t, i + 1 => rd t i

/-- Indexed write of a contiguous buffer, `v[i] = u` (no-op out of range). -/
def wr : List ℤ → ℕ → ℤ → List ℤ
  | [], _, _ => []
  | _ :: t, 0, u => u :: t
  | a :: t, i + 1, u => a :: wr t i u

/-! ### Element Accumulator Strategy, Plain shape
`element_adaptor_impl<std::false_type, T>`: `inc` is `++t`, `add` is
`t += u` (storage_adaptor.hpp lines 36-43). -/

/-- `static void inc(T& t) { ++t; }` for the Plain shape. -/
def ea_inc (t : ℤ) : ℤ := t + 1

/-- `static void add(T& t, U&& u) { t += u; }` for the Plain shape. -/
def ea_add (t u : ℤ) : ℤ := t + u

/-! ### Storage-like objects
`detail::requires_storage<U>`: anything exposing `size()` and indexed
read `u[i]`. Used as the right-hand side of assignment, `+=` and `==`. -/

/-- An object exposing `size()` and an indexed read. -/
structure StorageLike where
  n : ℕ
  read : ℕ → ℤ

/-! ### vector_augmentation (Growable Dense) -/

/-- `std::vector::resize(n)`: keep the first `n` elements, append
value-initialized (zero) elements if growing. -/
def listResize (v : List ℤ) (n : ℕ) : List ℤ :=
  v.take n ++ List.replicate (n - v.length) 0

/-- `std::fill(begin(), end(), value_type())`: overwrite every element
with the default value. -/
def listFill (v : List ℤ) : List ℤ := v.map (fun _ => 0)

/-- `vector_augmentation::reset(n)`: `resize(n)` then fill the whole
sequence with default values (lines 59-62). -/
def vec_reset (v : List ℤ) (n : ℕ) : List ℤ := listFill (listResize v n)

/-- `vector_augmentation::set(i, u)`: `(*this)[i] = u` (lines 64-67). -/
def vec_set (v : List ℤ) (i : ℕ) (u : ℤ) : List ℤ := wr v i u

/-- `std::vector::size()`. -/
def vec_size (v : List ℤ) : ℕ := v.length

/-- Adaptor `operator()(i)` on the vector backend:
`element_adaptor::inc((*this)[i])` (lines 169-172). -/
def vec_inc (v : List ℤ) (i : ℕ) : List ℤ := wr v i (ea_inc (rd v i))

/-- Adaptor `operator()(i, u)` on the vector backend:
`element_adaptor::add((*this)[i], u)` (lines 174-178). -/
def vec_addAt (v : List ℤ) (i : ℕ) (u : ℤ) : List ℤ := wr v i (ea_add (rd v i) u)

/-- `increment(i)` applied `k` times on the vector backend. -/
def vec_incN (v : List ℤ) (i : ℕ) : ℕ → List ℤ
  | 0 => v
  | k + 1 => vec_inc (vec_incN v i k) i

/-- The assignment loop `for (i = 0; i < n; ++i) this->set(i, rhs[i])`
on a vector backend, having processed indices `[0, k)`. -/
def setLoopV (v : List ℤ) (r : ℕ → ℤ) : ℕ → List ℤ
  | 0 => v
  | k + 1 => vec_set (setLoopV v r k) k (r k)

/-- Adaptor `operator=(const U&)` on the vector backend:
`reset(rhs.size())` then copy each element by index, the loop bound being
`this->size()` read after the reset (lines 162-167). -/
def vec_assign (v : List ℤ) (u : StorageLike) : List ℤ :=
  setLoopV (vec_reset v u.n) u.read (vec_size (vec_reset v u.n))

/-! ### array_augmentation (Fixed-Capacity Dense) -/

/-- The error thrown by `array_augmentation::reset`: the runtime_error
message `"size " n " exceeds maximum capacity " max_size` carries the
requested size and the capacity (lines 79-81). -/
structure CapErr where
  requested : ℕ
  cap : ℕ
deriving DecidableEq

/-- Fixed-Capacity Dense state: the fixed buffer (its length is the
capacity, `std::array::max_size()`) and the separately tracked logical
size `size_` (lines 91-92). -/
structure ArrayState where
  buf : List ℤ
  size_ : ℕ
deriving DecidableEq

/-- `this->max_size()` for the std::array backend: the buffer length. -/
def arr_maxSize (st : ArrayState) : ℕ := st.buf.length

/-- `std::fill_n(begin(), n, value_type())`: overwrite the first `n`
buffer slots with the default value, leaving the rest untouched. -/
def fillN : List ℤ → ℕ → List ℤ
  | l, 0 => l
  | [], _ + 1 => []
  | _ :: t, n + 1 => 0 :: fillN t n

/-- `array_augmentation::reset(n)` (lines 78-84): if `n > max_size()`
throw (carrying `n` and the capacity) before any mutation; otherwise
`fill_n` the first `n` slots with defaults and record `size_ = n`. -/
def array_reset (st : ArrayState) (n : ℕ) : Option CapErr × ArrayState :=
  if arr_maxSize st < n then (some ⟨n, arr_maxSize st⟩, st)
  else (none, ⟨fillN st.buf n, n⟩)

/-- `array_augmentation::set(i, u)`: `(*this)[i] = u` (lines 86-89). -/
def arr_set (st : ArrayState) (i : ℕ) (u : ℤ) : ArrayState :=
  ⟨wr st.buf i u, st.size_⟩

/-- Const indexed read `(*this)[i]` of the array backend. -/
def arr_get (st : ArrayState) (i : ℕ) : ℤ := rd st.buf i

/-- Adaptor `operator()(i)` on the array backend. -/
def arr_inc (st : ArrayState) (i : ℕ) : ArrayState :=
  arr_set st i (ea_inc (arr_get st i))

/-- Adaptor `operator()(i, u)` on the array backend. -/
def arr_addAt (st : ArrayState) (i : ℕ) (u : ℤ) : ArrayState :=
  arr_set st i (ea_add (arr_get st i) u)

/-- `increment(i)` applied `k` times on the array backend. -/
def arr_incN (st : ArrayState) (i : ℕ) : ℕ → ArrayState
  | 0 => st
  | k + 1 => arr_inc (arr_incN st i k) i

/-- The assignment loop on an array backend, indices `[0, k)` done. -/
def arrSetLoop (st : ArrayState) (r : ℕ → ℤ) : ℕ → ArrayState
  | 0 => st
  | k + 1 => arr_set (arrSetLoop st r k) k (r k)

/-- Adaptor `operator=(const U&)` on the array backend: `reset(rhs.size())`
— which may throw, in which case the loop never runs and the exception
propagates with the state untouched — then copy each element by index up
to `this->size()` (lines 162-167). -/
def arr_assign (st : ArrayState) (u : StorageLike) : Option CapErr × ArrayState :=
  match array_reset st u.n with
  | (some e, st1) => (some e, st1)
  | (none, st1) => (none, arrSetLoop st1 u.read st1.size_)

/-! ### map_augmentation (Sparse Map) -/

/-- Sparse Map state: the materialized entries (association list with
unique keys, as in std::map) and the separately tracked logical size
`size_` (lines 126-127). -/
structure MapState where
  entries : List (ℕ × ℤ)
  size_ : ℕ
deriving DecidableEq

/-- `this->find(i)`: the mapped value of the first (only) entry whose
key is `i`, if any. -/
def map_find (st : MapState) (i : ℕ) : Option ℤ :=
  (st.entries.find? (fun p => p.1 == i)).map Prod.snd

/-- `map_augmentation::reset(n)`: `clear()` and record `size_ = n`
(lines 105-108). -/
def map_reset (_st : MapState) (n : ℕ) : MapState := ⟨[], n⟩

/-- Const `operator[](i)` of map_augmentation (lines 110-113): look the
key up and return the mapped value BY VALUE, or a default-constructed
value when the key is absent. Note that this member hides the base
container's subscript operator. -/
def map_get (st : MapState) (i : ℕ) : ℤ := (map_find st i).getD 0

/-- `erase(it)` where `it = find(i)`: remove the (unique-keyed) entry
with key `i`. -/
def map_erase (st : MapState) (i : ℕ) : MapState :=
  ⟨st.entries.filter (fun p => p.1 != i), st.size_⟩

/-- `map_augmentation::set(i, u)` (lines 115-124): if `u` equals the
default value, erase the entry if present; otherwise overwrite the found
entry's mapped value, or insert `(i, u)` when absent. -/
def map_set (st : MapState) (i : ℕ) (u : ℤ) : MapState :=
  if u = 0 then
    if (map_find st i).isSome then map_erase st i else st
  else if (map_find st i).isSome then
    ⟨st.entries.map (fun p => if p.1 = i then (p.1, u) else p), st.size_⟩
  else
    ⟨(i, u) :: st.entries, st.size_⟩

/-- Adaptor `operator()(i)` on the map backend. `(*this)[i]` resolves to
map_augmentation's const `operator[]` (the only subscript in scope: it
hides the base container's), which returns a COPY of the element;
`element_adaptor::inc` mutates that temporary, so the map itself is left
unchanged (for builtin element types the instantiation is even
ill-formed: a non-const lvalue reference cannot bind the temporary). -/
def map_inc (st : MapState) (_i : ℕ) : MapState := st

/-- Adaptor `operator()(i, u)` on the map backend: same by-value
subscript as `map_inc`, the weighted add lands on a temporary and the
map is left unchanged. -/
def map_addAt (st : MapState) (_i : ℕ) (_u : ℤ) : MapState := st

/-- Adaptor `operator+=` on the map backend (lines 180-187): each loop
iteration does `element_adaptor::add((*this)[i], u[i])` where
`(*this)[i]` is map_augmentation's by-value const subscript, so every
add lands on a temporary and the map is left unchanged. -/
def map_addStorage (st : MapState) (_u : StorageLike) : MapState := st

/-- Adaptor `operator*=` on the map backend (lines 189-192): each loop
iteration does `(*this)[i] *= x` on the by-value subscript result, a
temporary, so the map is left unchanged. -/
def map_scale (st : MapState) (_x : ℚ) : MapState := st

/-- Adaptor `operator/=(x)`: defined as `operator*=(1.0 / x)`
(line 194), here on the map backend. -/
def map_div (st : MapState) (x : ℚ) : MapState := map_scale st (1 / x)

/-- `increment(i)` applied `k` times on the map backend. -/
def map_incN (st : MapState) (i : ℕ) : ℕ → MapState
  | 0 => st
  | k + 1 => map_inc (map_incN st i k) i

/-- The assignment loop on a map backend, indices `[0, k)` done; each
step goes through `map_augmentation::set`, so default values are never
materialized. -/
def mapSetLoop (st : MapState) (r : ℕ → ℤ) : ℕ → MapState
  | 0 => st
  | k + 1 => map_set (mapSetLoop st r k) k (r k)

/-- Adaptor `operator=(const U&)` on the map backend: `reset(rhs.size())`
then copy each element by index through `set` (lines 162-167). -/
def map_assign (st : MapState) (u : StorageLike) : MapState :=
  mapSetLoop (map_reset st u.n) u.read (map_reset st u.n).size_

/-! ### Storage-like views of the three backends -/

/-- The vector backend as a storage-like object. -/
def vecView (v : List ℤ) : StorageLike := ⟨vec_size v, rd v⟩

/-- The array backend as a storage-like object. -/
def arrView (st : ArrayState) : StorageLike := ⟨st.size_, arr_get st⟩

/-- The map backend as a storage-like object. -/
def mapView (st : MapState) : StorageLike := ⟨st.size_, map_get st⟩

/-- Adaptor `operator==(const U&)` (lines 196-203): false when the sizes
differ, otherwise an index-wise element comparison with early exit. -/
def storage_eq (a b : StorageLike) : Bool :=
  if a.n = b.n then (List.range a.n).all (fun i => a.read i == b.read i)
  else false

/-! ### The public operations on a Sparse Map storage, as a sequence -/

/-- One public operation of the storage adaptor, as applied to a
Sparse Map backed storage. -/
inductive MOp where
  | reset (n : ℕ)
  | set (i : ℕ) (u : ℤ)
  | inc (i : ℕ)
  | addAt (i : ℕ) (u : ℤ)
  | plusEq (u : StorageLike)
  | scale (x : ℚ)
  | assign (u : StorageLike)

/-- Interpret one public operation on a map-backed storage. -/
def mapRunOp (st : MapState) : MOp → MapState
  | .reset n => map_reset st n
  | .set i u => map_set st i u
  | .inc i => map_inc st i
  | .addAt i u => map_addAt st i u
  | .plusEq u => map_addStorage st u
  | .scale x => map_scale st x
  | .assign u => map_assign st u

/-- Run a sequence of public operations on a map-backed storage, starting
from the default-constructed storage (empty, size 0). -/
def mapRun (ops : List MOp) : MapState := ops.foldl mapRunOp ⟨[], 0⟩

/-- The Sparse Map invariant: no materialized entry holds the element
type's default value. -/
def mapInv (st : MapState) : Prop := ∀ p ∈ st.entries, p.2 ≠ 0

/-! ### interval_view (bin-interval accessor) -/

/-- An axis, as consumed by interval_view: only the "value at a
continuous position" query. -/
structure AxisQ where
  value : ℚ → ℚ

/-- `axis::interval_view`: a view over an axis and a bin index
(interval_view.hpp lines 14-43). -/
structure interval_view where
  axis : AxisQ
  idx : ℤ

/-- `lower()`: `axis_.value(idx_)` (line 22). -/
def interval_view.lower (v : interval_view) : ℚ := v.axis.value v.idx

/-- `upper()`: `axis_.value(idx_ + 1)` (line 24). -/
def interval_view.upper (v : interval_view) : ℚ := v.axis.value (v.idx + 1)

/-- `center()`: `axis_.value(idx_ + 0.5)` (line 26). -/
def interval_view.center (v : interval_view) : ℚ := v.axis.value ((v.idx : ℚ) + 1 / 2)

/-- `width()`: `upper() - lower()` (line 28). -/
def interval_view.width (v : interval_view) : ℚ := v.upper - v.lower

/-! ## Basic lemmas about the buffer primitives -/

theorem wr_length (l : List ℤ) (i : ℕ) (u : ℤ) : (wr l i u).length = l.length := by
  induction l generalizing i with
  | nil => rfl
  | cons a t ih =>
    cases i with
    | zero => rfl
    | succ j => simp [wr, ih]

theorem rd_wr_self (l : List ℤ) (i : ℕ) (u : ℤ) (h : i < l.length) :
    rd (wr l i u) i = u := by
  induction l generalizing i with
  | nil => simp at h
  | cons a t ih =>
    cases i with
    | zero => rfl
    | succ j =>
      simp only [List.length_cons, Nat.succ_lt_succ_iff] at h
      simpa [wr, rd] using ih j h

theorem rd_wr_ne (l : List ℤ) (i j : ℕ) (u : ℤ) (h : j ≠ i) :
    rd (wr l i u) j = rd l j := by
  induction l generalizing i j with
  | nil => rfl
  | cons a t ih =>
    cases i with
    | zero =>
      cases j with
      | zero => exact absurd rfl h
      | succ j2 => rfl
    | succ i2 =>
      cases j with
      | zero => rfl
      | succ j2 =>
        simp only [wr, rd]
        exact ih i2 j2 (fun hh => h (by omega))

theorem rd_replicate (n i : ℕ) (h : i < n) : rd (List.replicate n (0 : ℤ)) i = 0 := by
  induction n generalizing i with
  | zero => omega
  | succ m ih =>
    cases i with
    | zero => rfl
    | succ j =>
      simp only [List.replicate_succ, rd]
      exact ih j (by omega)

theorem listFill_eq (l : List ℤ) : listFill l = List.replicate l.length 0 := by
  induction l with
  | nil => rfl
  | cons a t ih => simp [listFill, List.replicate_succ] at ih ⊢

theorem listResize_length (v : List ℤ) (n : ℕ) : (listResize v n).length = n := by
  simp [listResize]; omega

theorem vec_reset_eq (v : List ℤ) (n : ℕ) : vec_reset v n = List.replicate n 0 := by
  rw [vec_reset, listFill_eq, listResize_length]

theorem fillN_length (l : List ℤ) (n : ℕ) : (fillN l n).length = l.length := by
  induction l generalizing n with
  | nil => cases n <;> rfl
  | cons a t ih =>
    cases n with
    | zero => rfl
    | succ m => simp [fillN, ih]

theorem rd_fillN (l : List ℤ) (n i : ℕ) (h1 : i < n) (h2 : i < l.length) :
    rd (fillN l n) i = 0 := by
  induction l generalizing n i with
  | nil => simp at h2
  | cons a t ih =>
    cases n with
    | zero => omega
    | succ m =>
      cases i with
      | zero => rfl
      | succ j =>
        simp only [fillN, rd]
        exact ih m j (by omega) (by simp at h2; omega)

/-! ## Lemmas about the assignment and increment loops (dense backends) -/

theorem setLoopV_length (v : List ℤ) (r : ℕ → ℤ) (k : ℕ) :
    (setLoopV v r k).length = v.length := by
  induction k with
  | zero => rfl
  | succ m ih => simp [setLoopV, vec_set, wr_length, ih]

theorem rd_setLoopV (v : List ℤ) (r : ℕ → ℤ) (k : ℕ) (hk : k ≤ v.length)
    (i : ℕ) (hi : i < v.length) :
    rd (setLoopV v r k) i = if i < k then r i else rd v i := by
  induction k with
  | zero => simp [setLoopV]
  | succ m ih =>
    simp only [setLoopV, vec_set]
    by_cases hmi : i = m
    · subst hmi
      rw [rd_wr_self _ _ _ (by rw [setLoopV_length]; omega)]
      simp
    · rw [rd_wr_ne _ _ _ _ hmi, ih (by omega)]
      by_cases hlt : i < m
      · rw [if_pos hlt, if_pos (show i < m + 1 by omega)]
      · rw [if_neg hlt, if_neg (show ¬ i < m + 1 by omega)]

theorem vec_incN_length (v : List ℤ) (i k : ℕ) : (vec_incN v i k).length = v.length := by
  induction k with
  | zero => rfl
  | succ m ih => simp [vec_incN, vec_inc, wr_length, ih]

theorem rd_vec_incN (v : List ℤ) (i : ℕ) (h : i < v.length) (k : ℕ) :
    rd (vec_incN v i k) i = rd v i + (k : ℤ) := by
  induction k with
  | zero => simp [vec_incN]
  | succ m ih =>
    simp only [vec_incN, vec_inc, ea_inc]
    rw [rd_wr_self _ _ _ (by rw [vec_incN_length]; omega), ih]
    push_cast
    ring

theorem arr_incN_eq (st : ArrayState) (i k : ℕ) :
    arr_incN st i k = ⟨vec_incN st.buf i k, st.size_⟩ := by
  induction k with
  | zero => rfl
  | succ m ih => simp [arr_incN, vec_incN, ih, arr_inc, arr_set, arr_get, vec_inc]

theorem arrSetLoop_eq (st : ArrayState) (r : ℕ → ℤ) (k : ℕ) :
    arrSetLoop st r k = ⟨setLoopV st.buf r k, st.size_⟩ := by
  induction k with
  | zero => rfl
  | succ m ih => simp [arrSetLoop, setLoopV, ih, arr_set, vec_set]

/-! ## Lemmas about the map backend -/

theorem find?_filter_key_none (l : List (ℕ × ℤ)) (i : ℕ) :
    List.find? (fun p => p.1 == i) (l.filter (fun p => p.1 != i)) = none := by
  induction l with
  | nil => rfl
  | cons a t ih =>
    rw [List.filter_cons]
    by_cases h : a.1 = i
    · rw [if_neg (by simp [h])]
      exact ih
    · rw [if_pos (by simp [h]), List.find?_cons_of_neg _ (by simp [h])]
      exact ih

theorem find?_filter_key_ne (l : List (ℕ × ℤ)) (i j : ℕ) (h : j ≠ i) :
    List.find? (fun p => p.1 == j) (l.filter (fun p => p.1 != i))
      = List.find? (fun p => p.1 == j) l := by
  induction l with
  | nil => rfl
  | cons a t ih =>
    rw [List.filter_cons]
    by_cases hai : a.1 = i
    · rw [if_neg (by simp [hai]), ih,
        List.find?_cons_of_neg _ (by simp [hai]; omega)]
    · by_cases haj : a.1 = j
      · rw [if_pos (by simp [hai]), List.find?_cons_of_pos _ (by simp [haj]),
          List.find?_cons_of_pos _ (by simp [haj])]
      · rw [if_pos (by simp [hai]), List.find?_cons_of_neg _ (by simp [haj]),
          List.find?_cons_of_neg _ (by simp [haj]), ih]

theorem find?_update_self (l : List (ℕ × ℤ)) (i : ℕ) (u : ℤ)
    (h : (List.find? (fun p => p.1 == i) l).isSome) :
    (List.find? (fun p => p.1 == i)
        (l.map (fun p => if p.1 = i then (p.1, u) else p))).map Prod.snd
      = some u := by
  induction l with
  | nil => simp at h
  | cons a t ih =>
    by_cases hai : a.1 = i
    · rw [List.map_cons, if_pos hai,
        List.find?_cons_of_pos _ (by simp [hai])]
      simp
    · rw [List.find?_cons_of_neg _ (by simp [hai])] at h
      rw [List.map_cons, if_neg hai,
        List.find?_cons_of_neg _ (by simp [hai])]
      exact ih h

theorem find?_update_ne (l : List (ℕ × ℤ)) (i j : ℕ) (u : ℤ) (h : j ≠ i) :
    List.find? (fun p => p.1 == j) (l.map (fun p => if p.1 = i then (p.1, u) else p))
      = List.find? (fun p => p.1 == j) l := by
  induction l with
  | nil => rfl
  | cons a t ih =>
    by_cases hai : a.1 = i
    · rw [List.map_cons, if_pos hai,
        List.find?_cons_of_neg _ (by simp [hai]; omega),
        List.find?_cons_of_neg _ (by simp [hai]; omega), ih]
    · by_cases haj : a.1 = j
      · rw [List.map_cons, if_neg hai,
          List.find?_cons_of_pos _ (by simp [haj]),
          List.find?_cons_of_pos _ (by simp [haj])]
      · rw [List.map_cons, if_neg hai,
          List.find?_cons_of_neg _ (by simp [haj]),
          List.find?_cons_of_neg _ (by simp [haj]), ih]

theorem map_find_erase (st : MapState) (i : ℕ) : map_find (map_erase st i) i = none := by
  simp only [map_erase, map_find, find?_filter_key_none]
  rfl

theorem map_find_erase_ne (st : MapState) (i j : ℕ) (h : j ≠ i) :
    map_find (map_erase st i) j = map_find st j := by
  simp only [map_erase, map_find, find?_filter_key_ne st.entries i j h]

theorem map_find_set_self (st : MapState) (i : ℕ) (u : ℤ) :
    map_find (map_set st i u) i = if u = 0 then none else some u := by
  by_cases hu : u = 0
  · subst hu
    simp only [map_set, if_pos rfl, if_pos]
    by_cases hs : (map_find st i).isSome
    · simp [hs, map_find_erase]
    · rw [if_neg hs]
      rw [Option.not_isSome_iff_eq_none] at hs
      simp [hs]
  · by_cases hs : (map_find st i).isSome
    · rw [map_set, if_neg hu, if_pos hs, if_neg hu]
      have hs2 : (List.find? (fun p => p.1 == i) st.entries).isSome := by
        rw [map_find] at hs
        cases hfind : List.find? (fun p => p.1 == i) st.entries with
        | none => rw [hfind] at hs; simp at hs
        | some a => rfl
      exact find?_update_self st.entries i u hs2
    · rw [map_set, if_neg hu, if_neg hs, map_find]
      rw [List.find?_cons_of_pos _ (by simp)]
      simp [hu]

theorem map_find_set_ne (st : MapState) (i j : ℕ) (u : ℤ) (h : j ≠ i) :
    map_find (map_set st i u) j = map_find st j := by
  by_cases hu : u = 0
  · subst hu
    simp only [map_set, if_pos rfl]
    by_cases hs : (map_find st i).isSome
    · simp [hs, map_find_erase_ne st i j h]
    · simp [hs]
  · by_cases hs : (map_find st i).isSome
    · rw [map_set, if_neg hu, if_pos hs, map_find, map_find]
      rw [find?_update_ne st.entries i j u h]
    · rw [map_set, if_neg hu, if_neg hs, map_find, map_find]
      rw [List.find?_cons_of_neg _ (by simp [Ne.symm h])]

theorem map_get_set_self (st : MapState) (i : ℕ) (u : ℤ) :
    map_get (map_set st i u) i = u := by
  rw [map_get, map_find_set_self]
  by_cases hu : u = 0 <;> simp [hu]

theorem map_get_set_ne (st : MapState) (i j : ℕ) (u : ℤ) (h : j ≠ i) :
    map_get (map_set st i u) j = map_get st j := by
  rw [map_get, map_find_set_ne st i j u h, map_get]

theorem map_set_size (st : MapState) (i : ℕ) (u : ℤ) :
    (map_set st i u).size_ = st.size_ := by
  rw [map_set]
  by_cases hu : u = 0 <;> by_cases hs : (map_find st i).isSome <;>
    simp [hu, hs, map_erase]

theorem mapSetLoop_size (st : MapState) (r : ℕ → ℤ) (k : ℕ) :
    (mapSetLoop st r k).size_ = st.size_ := by
  induction k with
  | zero => rfl
  | succ m ih => rw [mapSetLoop, map_set_size, ih]

theorem map_get_setLoop (st : MapState) (r : ℕ → ℤ) (k : ℕ) (i : ℕ) :
    map_get (mapSetLoop st r k) i = if i < k then r i else map_get st i := by
  induction k with
  | zero => simp [mapSetLoop]
  | succ m ih =>
    simp only [mapSetLoop]
    by_cases hmi : i = m
    · subst hmi
      simp [map_get_set_self]
    · rw [map_get_set_ne _ _ _ _ hmi, ih]
      by_cases hlt : i < m
      · rw [if_pos hlt, if_pos (show i < m + 1 by omega)]
      · rw [if_neg hlt, if_neg (show ¬ i < m + 1 by omega)]

/-! ## The Sparse Map zero-elision invariant -/

theorem mapInv_set (st : MapState) (i : ℕ) (u : ℤ) (h : mapInv st) :
    mapInv (map_set st i u) := by
  rw [map_set]
  by_cases hu : u = 0
  · rw [if_pos hu]
    by_cases hs : (map_find st i).isSome
    · rw [if_pos hs]
      intro p hp
      exact h p (List.mem_of_mem_filter hp)
    · rw [if_neg hs]
      exact h
  · rw [if_neg hu]
    by_cases hs : (map_find st i).isSome
    · rw [if_pos hs]
      intro p hp
      rcases List.mem_map.1 hp with ⟨q, hq, hqe⟩
      by_cases hqi : q.1 = i
      · rw [if_pos hqi] at hqe
        rw [← hqe]
        exact hu
      · rw [if_neg hqi] at hqe
        rw [← hqe]
        exact h q hq
    · rw [if_neg hs]
      intro p hp
      rcases List.mem_cons.1 hp with hp1 | hp2
      · rw [hp1]
        exact hu
      · exact h p hp2

theorem mapInv_setLoop (st : MapState) (r : ℕ → ℤ) (h : mapInv st) (k : ℕ) :
    mapInv (mapSetLoop st r k) := by
  induction k with
  | zero => exact h
  | succ m ih => exact mapInv_set _ _ _ ih

theorem mapInv_reset (st : MapState) (n : ℕ) : mapInv (map_reset st n) := by
  intro p hp
  simp [map_reset] at hp

theorem mapInv_assign (st : MapState) (u : StorageLike) : mapInv (map_assign st u) :=
  mapInv_setLoop _ _ (mapInv_reset st u.n) _

theorem mapInv_runOp (st : MapState) (op : MOp) (h : mapInv st) :
    mapInv (mapRunOp st op) := by
  cases op with
  | reset n => exact mapInv_reset st n
  | set i u => exact mapInv_set st i u h
  | inc i => exact h
  | addAt i u => exact h
  | plusEq u => exact h
  | scale x => exact h
  | assign u => exact mapInv_assign st u

theorem mapInv_foldl (ops : List MOp) (st : MapState) (h : mapInv st) :
    mapInv (ops.foldl mapRunOp st) := by
  induction ops generalizing st with
  | nil => exact h
  | cons op rest ih => exact ih _ (mapInv_runOp st op h)

theorem mapInv_run (ops : List MOp) : mapInv (mapRun ops) :=
  mapInv_foldl ops ⟨[], 0⟩ (by intro p hp; simp at hp)

/-! ## Further helper lemmas -/

theorem map_incN_eq (st : MapState) (i k : ℕ) : map_incN st i k = st := by
  induction k with
  | zero => rfl
  | succ m ih => rw [map_incN, ih]; rfl

theorem arr_assign_ok (ast : ArrayState) (u : StorageLike)
    (h : u.n ≤ arr_maxSize ast) :
    arr_assign ast u = (none, arrSetLoop ⟨fillN ast.buf u.n, u.n⟩ u.read u.n) := by
  rw [arr_assign, array_reset, if_neg (by omega)]

theorem arr_assign_fail (ast : ArrayState) (u : StorageLike)
    (h : arr_maxSize ast < u.n) :
    arr_assign ast u = (some ⟨u.n, arr_maxSize ast⟩, ast) := by
  rw [arr_assign, array_reset, if_pos h]

/-! ## Claim theorems -/

/-- C1: For every non-negative `n` and every backend variant (Growable
Dense, Fixed-Capacity Dense with `n` within capacity, Sparse Map),
calling `resize(n)` on a Storage makes `size()` return `n` and makes
every index `i` in `[0, n)` read as the element type's default value. -/
theorem reset_size_and_defaults
    (v : List ℤ) (n₁ : ℕ)
    (ast : ArrayState) (n₂ : ℕ) (h : n₂ ≤ arr_maxSize ast)
    (mst : MapState) (n₃ : ℕ) :
    (vec_size (vec_reset v n₁) = n₁ ∧ ∀ i, i < n₁ → rd (vec_reset v n₁) i = 0)
    ∧ ((array_reset ast n₂).1 = none ∧ (array_reset ast n₂).2.size_ = n₂
        ∧ ∀ i, i < n₂ → arr_get (array_reset ast n₂).2 i = 0)
    ∧ ((map_reset mst n₃).size_ = n₃ ∧ ∀ i, i < n₃ → map_get (map_reset mst n₃) i = 0) := by
  refine ⟨⟨?_, ?_⟩, ⟨?_, ?_, ?_⟩, rfl, fun i _ => rfl⟩
  · rw [vec_size, vec_reset_eq, List.length_replicate]
  · intro i hi
    rw [vec_reset_eq]
    exact rd_replicate n₁ i hi
  · rw [array_reset, if_neg (by omega)]
  · rw [array_reset, if_neg (by omega)]
  · intro i hi
    rw [array_reset, if_neg (by omega)]
    exact rd_fillN ast.buf n₂ i hi (by rw [arr_maxSize] at h; omega)

/-- Witness for C1 at concrete inputs. -/
theorem reset_size_and_defaults_witness :
    (2 : ℕ) ≤ arr_maxSize ⟨[7, 7, 7], 0⟩
    ∧ vec_size (vec_reset [5] 2) = 2
    ∧ rd (vec_reset [5] 2) 1 = 0
    ∧ (array_reset ⟨[7, 7, 7], 0⟩ 2).1 = none
    ∧ (array_reset ⟨[7, 7, 7], 0⟩ 2).2.size_ = 2
    ∧ arr_get (array_reset ⟨[7, 7, 7], 0⟩ 2).2 1 = 0
    ∧ (map_reset ⟨[(0, 4)], 5⟩ 3).size_ = 3
    ∧ map_get (map_reset ⟨[(0, 4)], 5⟩ 3) 0 = 0 := by
  have h := reset_size_and_defaults [5] 2 ⟨[7, 7, 7], 0⟩ 2 (by decide) ⟨[(0, 4)], 5⟩ 3
  exact ⟨by decide, h.1.1, h.1.2 1 (by decide), h.2.1.1, h.2.1.2.1,
    h.2.1.2.2 1 (by decide), h.2.2.1, h.2.2.2 0 (by decide)⟩

/-- C2: For a Fixed-Capacity Dense storage with capacity `C`, `resize(n)`
succeeds when `n ≤ C`; when the requested size exceeds `C` it fails with a
CapacityExceeded error that carries the requested size and the capacity
`C`, and `size()` is unchanged after the failed call. -/
theorem array_reset_capacity_policy (ast : ArrayState) (n m : ℕ)
    (h1 : n ≤ arr_maxSize ast) (h2 : arr_maxSize ast < m) :
    ((array_reset ast n).1 = none ∧ (array_reset ast n).2.size_ = n)
    ∧ ((array_reset ast m).1 = some ⟨m, arr_maxSize ast⟩
        ∧ (array_reset ast m).2.size_ = ast.size_) := by
  refine ⟨⟨?_, ?_⟩, ?_, ?_⟩
  · rw [array_reset, if_neg (by omega)]
  · rw [array_reset, if_neg (by omega)]
  · rw [array_reset, if_pos h2]
  · rw [array_reset, if_pos h2]

/-- Witness for C2: capacity 4, `resize(4)` succeeds, `resize(5)` fails
carrying requested size 5 and capacity 4, size still 0. -/
theorem array_reset_capacity_policy_witness :
    (4 : ℕ) ≤ arr_maxSize ⟨[1, 2, 3, 4], 0⟩
    ∧ arr_maxSize ⟨[1, 2, 3, 4], 0⟩ < 5
    ∧ (array_reset ⟨[1, 2, 3, 4], 0⟩ 4).1 = none
    ∧ (array_reset ⟨[1, 2, 3, 4], 0⟩ 4).2.size_ = 4
    ∧ (array_reset ⟨[1, 2, 3, 4], 0⟩ 5).1 = some ⟨5, 4⟩
    ∧ (array_reset ⟨[1, 2, 3, 4], 0⟩ 5).2.size_ = 0 := by
  have h := array_reset_capacity_policy ⟨[1, 2, 3, 4], 0⟩ 4 5 (by decide) (by decide)
  exact ⟨by decide, by decide, h.1.1, h.1.2, h.2.1, h.2.2⟩

/-- C9: When `array_augmentation::reset(n)` fails because `n` exceeds the
buffer's capacity, it throws before performing any mutation: the whole
state — the logical size and every element of the underlying buffer — is
exactly as it was before the call. -/
theorem array_reset_failure_atomic (ast : ArrayState) (n : ℕ)
    (h : arr_maxSize ast < n) :
    array_reset ast n = (some ⟨n, arr_maxSize ast⟩, ast) := by
  rw [array_reset, if_pos h]

/-- Witness for C9 at a concrete input. -/
theorem array_reset_failure_atomic_witness :
    arr_maxSize ⟨[9, 8], 2⟩ < 3
    ∧ array_reset ⟨[9, 8], 2⟩ 3 = (some ⟨3, 2⟩, ⟨[9, 8], 2⟩) :=
  ⟨by decide, array_reset_failure_atomic ⟨[9, 8], 2⟩ 3 (by decide)⟩

/-- C3: For a Sparse Map backed Storage, after any sequence of the public
operations (resize, set, increment, add, `+=`, `*=`, assignment) no
materialized entry equals the element type's default value; reading an
unmaterialized in-range index returns the default value, and writing the
default value over an existing entry removes that entry. -/
theorem sparse_map_default_elision_invariant (ops : List MOp) :
    (∀ p ∈ (mapRun ops).entries, p.2 ≠ 0)
    ∧ (∀ i, i < (mapRun ops).size_ → map_find (mapRun ops) i = none →
        map_get (mapRun ops) i = 0)
    ∧ (∀ i, (map_find (mapRun ops) i).isSome →
        map_find (map_set (mapRun ops) i 0) i = none) := by
  refine ⟨mapInv_run ops, ?_, ?_⟩
  · intro i _ hf
    rw [map_get, hf]
    rfl
  · intro i _
    rw [map_find_set_self]
    simp

/-- Witness for C3 with the concrete sequence resize(3); set(0, 5). -/
theorem sparse_map_default_elision_invariant_witness :
    map_get (mapRun [MOp.reset 3, MOp.set 0 5]) 1 = 0
    ∧ map_find (map_set (mapRun [MOp.reset 3, MOp.set 0 5]) 0 0) 0 = none := by
  have h := sparse_map_default_elision_invariant [MOp.reset 3, MOp.set 0 5]
  exact ⟨h.2.1 1 (by decide) (by decide), h.2.2 0 (by decide)⟩

/-- C4: Assigning a Storage-like source `rhs` (anything exposing `size()`
and indexed read) to a Storage first resizes it to `rhs.size()` with all
elements default, then copies every element `rhs[i]` index by index for
`i` in `[0, rhs.size())` — so afterwards `size()` is `rhs.size()` and
every in-range index reads `rhs[i]` — and when the target is
Fixed-Capacity Dense and `rhs.size()` exceeds its capacity the
assignment fails with CapacityExceeded, leaving the target unchanged. -/
theorem cross_backend_assignment
    (v : List ℤ) (u₁ : StorageLike)
    (ast : ArrayState) (u₂ : StorageLike) (h : u₂.n ≤ arr_maxSize ast)
    (ast2 : ArrayState) (u₃ : StorageLike) (h2 : arr_maxSize ast2 < u₃.n)
    (mst : MapState) (u₄ : StorageLike) :
    (vec_size (vec_assign v u₁) = u₁.n
      ∧ ∀ i, i < u₁.n → rd (vec_assign v u₁) i = u₁.read i)
    ∧ ((arr_assign ast u₂).1 = none ∧ (arr_assign ast u₂).2.size_ = u₂.n
      ∧ ∀ i, i < u₂.n → arr_get (arr_assign ast u₂).2 i = u₂.read i)
    ∧ arr_assign ast2 u₃ = (some ⟨u₃.n, arr_maxSize ast2⟩, ast2)
    ∧ ((map_assign mst u₄).size_ = u₄.n
      ∧ ∀ i, i < u₄.n → map_get (map_assign mst u₄) i = u₄.read i) := by
  have hwlen : (vec_reset v u₁.n).length = u₁.n := by
    rw [vec_reset_eq, List.length_replicate]
  refine ⟨⟨?_, ?_⟩, ⟨?_, ?_, ?_⟩, arr_assign_fail ast2 u₃ h2, ?_, ?_⟩
  · rw [vec_assign, vec_size, setLoopV_length, hwlen]
  · intro i hi
    rw [vec_assign, vec_size, hwlen,
      rd_setLoopV _ _ _ (by omega) i (by omega), if_pos hi]
  · rw [arr_assign_ok ast u₂ h]
  · rw [arr_assign_ok ast u₂ h, arrSetLoop_eq]
  · intro i hi
    have hblen : (fillN ast.buf u₂.n).length = ast.buf.length := fillN_length _ _
    rw [arr_assign_ok ast u₂ h, arrSetLoop_eq, arr_get,
      rd_setLoopV _ _ _ (by rw [hblen]; rw [arr_maxSize] at h; omega) i
        (by rw [hblen]; rw [arr_maxSize] at h; omega), if_pos hi]
  · rw [map_assign, mapSetLoop_size]
    rfl
  · intro i hi
    rw [map_assign, map_get_setLoop]
    rw [show (map_reset mst u₄.n).size_ = u₄.n from rfl, if_pos hi]

/-- Witness for C4 at concrete inputs: a source reading `[1, 2]` assigned
into each backend, and an oversized source rejected by the array backend. -/
theorem cross_backend_assignment_witness :
    (2 : ℕ) ≤ arr_maxSize ⟨[7, 7, 7], 1⟩
    ∧ arr_maxSize ⟨[7], 5⟩ < 2
    ∧ vec_size (vec_assign [9] ⟨2, fun i => (i : ℤ) + 1⟩) = 2
    ∧ rd (vec_assign [9] ⟨2, fun i => (i : ℤ) + 1⟩) 1 = 2
    ∧ (arr_assign ⟨[7, 7, 7], 1⟩ ⟨2, fun i => (i : ℤ) + 1⟩).1 = none
    ∧ (arr_assign ⟨[7, 7, 7], 1⟩ ⟨2, fun i => (i : ℤ) + 1⟩).2.size_ = 2
    ∧ arr_get (arr_assign ⟨[7, 7, 7], 1⟩ ⟨2, fun i => (i : ℤ) + 1⟩).2 0 = 1
    ∧ arr_assign ⟨[7], 5⟩ ⟨2, fun i => (i : ℤ) + 1⟩ = (some ⟨2, 1⟩, ⟨[7], 5⟩)
    ∧ (map_assign ⟨[(4, 8)], 9⟩ ⟨2, fun i => (i : ℤ) + 1⟩).size_ = 2
    ∧ map_get (map_assign ⟨[(4, 8)], 9⟩ ⟨2, fun i => (i : ℤ) + 1⟩) 1 = 2 := by
  have h := cross_backend_assignment [9] ⟨2, fun i => (i : ℤ) + 1⟩
    ⟨[7, 7, 7], 1⟩ ⟨2, fun i => (i : ℤ) + 1⟩ (by decide)
    ⟨[7], 5⟩ ⟨2, fun i => (i : ℤ) + 1⟩ (by decide)
    ⟨[(4, 8)], 9⟩ ⟨2, fun i => (i : ℤ) + 1⟩
  exact ⟨by decide, by decide, h.1.1, by rw [h.1.2 1 (by decide)]; norm_num,
    h.2.1.1, h.2.1.2.1, by rw [h.2.1.2.2 0 (by decide)]; norm_num,
    h.2.2.1, h.2.2.2.1, by rw [h.2.2.2.2 1 (by decide)]; norm_num⟩

/-- C5: For every Storage `a` and Storage-like object `b`, including
storages with different backends, `a == b` returns false when
`a.size() != b.size()`, and otherwise returns true if and only if
`a[i]` equals `b[i]` for every index `i` in `[0, size())`. -/
theorem storage_equality_semantics (a b : StorageLike) :
    (a.n ≠ b.n → storage_eq a b = false)
    ∧ (storage_eq a b = true ↔ (a.n = b.n ∧ ∀ i, i < a.n → a.read i = b.read i)) := by
  constructor
  · intro h
    rw [storage_eq, if_neg h]
  · rw [storage_eq]
    by_cases h : a.n = b.n
    · rw [if_pos h, List.all_eq_true]
      constructor
      · intro hall
        refine ⟨h, fun i hi => ?_⟩
        have := hall i (List.mem_range.2 hi)
        simpa using this
      · intro hh i hi
        have := hh.2 i (List.mem_range.1 hi)
        simpa using this
    · rw [if_neg h]
      simp [h]

/-- Witness for C5: a Growable Dense storage and a Sparse Map storage with
the same logical content compare equal; a size mismatch compares false. -/
theorem storage_equality_semantics_witness :
    storage_eq (vecView [2, 0]) (mapView ⟨[(0, 2)], 2⟩) = true
    ∧ storage_eq (vecView [1]) (mapView ⟨[], 2⟩) = false := by
  refine ⟨(storage_equality_semantics (vecView [2, 0]) (mapView ⟨[(0, 2)], 2⟩)).2.mpr
    ⟨by decide, by decide⟩,
    (storage_equality_semantics (vecView [1]) (mapView ⟨[], 2⟩)).1 (by decide)⟩

/-- C6: For every Storage of Plain-shape numeric elements, every in-range
index `i` and every natural `k`, applying `increment(i)` `k` times yields
the same element value at index `i` as a single `add(i, k)` — on all
three backends. -/
theorem increment_iterated_eq_add
    (v : List ℤ) (i₁ k₁ : ℕ) (h₁ : i₁ < vec_size v)
    (ast : ArrayState) (i₂ k₂ : ℕ) (h₂ : i₂ < ast.size_)
    (h₂b : ast.size_ ≤ arr_maxSize ast)
    (mst : MapState) (i₃ k₃ : ℕ) :
    rd (vec_incN v i₁ k₁) i₁ = rd (vec_addAt v i₁ (k₁ : ℤ)) i₁
    ∧ arr_get (arr_incN ast i₂ k₂) i₂ = arr_get (arr_addAt ast i₂ (k₂ : ℤ)) i₂
    ∧ map_get (map_incN mst i₃ k₃) i₃ = map_get (map_addAt mst i₃ (k₃ : ℤ)) i₃ := by
  rw [vec_size] at h₁
  have hbl : i₂ < ast.buf.length := by
    rw [arr_maxSize] at h₂b
    omega
  refine ⟨?_, ?_, ?_⟩
  · rw [rd_vec_incN v i₁ h₁ k₁, vec_addAt, ea_add, rd_wr_self _ _ _ h₁]
  · rw [arr_incN_eq, arr_get, rd_vec_incN ast.buf i₂ hbl k₂,
      arr_addAt, ea_add, arr_set, arr_get, arr_get, rd_wr_self _ _ _ hbl]
  · rw [map_incN_eq]
    rfl

/-- Witness for C6 at concrete inputs: two increments at index 0 equal a
single add of 2. -/
theorem increment_iterated_eq_add_witness :
    (0 : ℕ) < vec_size [4, 4]
    ∧ rd (vec_incN [4, 4] 0 2) 0 = rd (vec_addAt [4, 4] 0 2) 0
    ∧ arr_get (arr_incN ⟨[4, 4], 2⟩ 0 2) 0 = arr_get (arr_addAt ⟨[4, 4], 2⟩ 0 2) 0
    ∧ map_get (map_incN ⟨[(0, 4)], 2⟩ 0 2) 0 = map_get (map_addAt ⟨[(0, 4)], 2⟩ 0 2) 0 := by
  have h := increment_iterated_eq_add [4, 4] 0 2 (by decide)
    ⟨[4, 4], 2⟩ 0 2 (by decide) (by decide) ⟨[(0, 4)], 2⟩ 0 2
  exact ⟨by decide, h.1, h.2.1, h.2.2⟩

/-- C7, evaluation at the failing input: on a Sparse Map backed storage
holding value 5 at index 0, `operator*= 2` leaves the storage completely
unchanged (the subscript returns the element by value, so the multiply
lands on a temporary), the element still reads 5 rather than the
claimed 5 * 2, and `operator/=` — defined as `*= (1/x)` — is likewise a
no-op. -/
theorem scale_noop_on_sparse_map :
    map_scale ⟨[(0, 5)], 1⟩ 2 = ⟨[(0, 5)], 1⟩
    ∧ map_get (map_scale ⟨[(0, 5)], 1⟩ 2) 0 = 5
    ∧ map_get (map_scale ⟨[(0, 5)], 1⟩ 2) 0 ≠ 5 * 2
    ∧ map_div ⟨[(0, 5)], 1⟩ 2 = ⟨[(0, 5)], 1⟩ := by
  refine ⟨rfl, by decide, by decide, rfl⟩

/-- C8, evaluation at the failing input: on a Sparse Map backed storage
`a` holding value 5 at index 0, `a += b` with `b` of equal size reading 3
at index 0 leaves `a` completely unchanged (each `element_adaptor::add`
lands on the temporary returned by the by-value subscript), so `a[0]`
still reads 5 although the weighted-add path would produce
`ea_add 5 3 = 8`. -/
theorem plusEq_noop_on_sparse_map :
    map_addStorage ⟨[(0, 5)], 1⟩ ⟨1, fun _ => 3⟩ = ⟨[(0, 5)], 1⟩
    ∧ ea_add 5 3 = 8
    ∧ map_get (map_addStorage ⟨[(0, 5)], 1⟩ ⟨1, fun _ => 3⟩) 0 ≠ ea_add 5 3 := by
  refine ⟨rfl, rfl, by decide⟩

/-- C10: the bin-interval accessor derives its results solely from the
axis's value-at-continuous-position query: `lower()` is
`axis.value(idx)`, `upper()` is `axis.value(idx + 1)`, `center()` is
`axis.value(idx + 0.5)`, `width()` is `upper() - lower()`; and any two
axes agreeing on those three queries give identical accessor results. -/
theorem interval_view_accessors (a b : AxisQ) (i : ℤ)
    (h₁ : a.value (i : ℚ) = b.value (i : ℚ))
    (h₂ : a.value ((i : ℚ) + 1) = b.value ((i : ℚ) + 1))
    (h₃ : a.value ((i : ℚ) + 1 / 2) = b.value ((i : ℚ) + 1 / 2)) :
    interval_view.lower ⟨a, i⟩ = a.value (i : ℚ)
    ∧ interval_view.upper ⟨a, i⟩ = a.value ((i : ℚ) + 1)
    ∧ interval_view.center ⟨a, i⟩ = a.value ((i : ℚ) + 1 / 2)
    ∧ interval_view.width ⟨a, i⟩
        = interval_view.upper ⟨a, i⟩ - interval_view.lower ⟨a, i⟩
    ∧ interval_view.lower ⟨a, i⟩ = interval_view.lower ⟨b, i⟩
    ∧ interval_view.upper ⟨a, i⟩ = interval_view.upper ⟨b, i⟩
    ∧ interval_view.center ⟨a, i⟩ = interval_view.center ⟨b, i⟩
    ∧ interval_view.width ⟨a, i⟩ = interval_view.width ⟨b, i⟩ := by
  refine ⟨rfl, rfl, rfl, rfl, h₁, h₂, h₃, ?_⟩
  show a.value ((i : ℚ) + 1) - a.value (i : ℚ)
    = b.value ((i : ℚ) + 1) - b.value (i : ℚ)
  rw [h₁, h₂]

/-- Witness for C10 with the identity axis at bin index 3. -/
theorem interval_view_accessors_witness :
    interval_view.lower ⟨⟨fun x => x⟩, 3⟩ = ((3 : ℤ) : ℚ)
    ∧ interval_view.width ⟨⟨fun x => x⟩, 3⟩
        = interval_view.upper ⟨⟨fun x => x⟩, 3⟩ - interval_view.lower ⟨⟨fun x => x⟩, 3⟩ := by
  have h := interval_view_accessors ⟨fun x => x⟩ ⟨fun x => x⟩ 3 rfl rfl rfl
  exact ⟨h.1, h.2.2.2.1⟩

end HistStorage
